import Mathlib

/-!
Verification of the code-generation core of `pysb/tools/export_python.py`.

The development shallowly embeds, over `List Char` strings and exact integer
scalars, the three parts of the exporter that carry design content:

* the expression translator (species-marker and parameter-name substitution,
  source lines 141-146),
* the emitter discipline for the two `ode_rhs` bodies (source lines 215-228)
  together with the `pad`/`textwrap.dedent` helpers it uses (lines 111-116),
* the generated simulation harness `Model.simulate` (source lines 231-274)
  and the load-time `scipy.weave.inline` capability probe (lines 159-166).

Machine floats of the generated program are abstracted as exact integers; the
verified properties use only ring operations and equality on scalars.  The
external stiff integrator is abstracted as an oracle assigning to each loop
iteration either a successfully integrated state row or a stop signal.
-/

/-! ### Species-marker substitution (source lines 143-144)

`code_eqs = re.sub(r's(\d+)', lambda m: 'y[%s]' % (int(m.group(1))), code_eqs)`

The regex scans left to right; at an `s` immediately followed by a digit it
greedily consumes the maximal digit run and replaces the match with `y[v]`
where `v` is the decimal value of the run (leading zeros removed by `int`).
There is no word-boundary anchor in this regex.  The recursion is structured
with an explicit fuel argument (initialised to the string length, which the
scan never exceeds) so that the function is structurally recursive and
evaluates inside the kernel. -/

def digitsToNat (ds : List Char) : Nat :=
  ds.foldl (fun n c => 10 * n + (c.toNat - 48)) 0

def substSpeciesAux : Nat → List Char → List Char
  | 0, s => s
  | _ + 1, [] => []
  | fuel + 1, c :: rest =>
    if c = 's' ∧ ((rest.head?.map Char.isDigit).getD false) = true then
      'y' :: '[' :: ((Nat.repr (digitsToNat (rest.takeWhile Char.isDigit))).data
        ++ (']' :: substSpeciesAux fuel (rest.dropWhile Char.isDigit)))
    else c :: substSpeciesAux fuel rest

def substSpecies (s : List Char) : List Char := substSpeciesAux s.length s

/-! ### Parameter-name substitution (source lines 145-146)

`code_eqs = re.sub(r'\b(%s)\b' % p.name, 'p[%d]' % i, code_eqs)`

Parameter names are Python identifiers (word characters only, starting with a
letter or underscore), so the pattern matches an occurrence of the name whose
neighbouring characters, when present, are not word characters.  `re.sub`
scans left to right over the original string and resumes after each match, so
the character preceding a later candidate position is the corresponding
character of the original string (for the position just after a match, the
last character of the matched name). -/

def isWordChar (c : Char) : Bool := c.isAlphanum || c == '_'

def boundaryOk (next : Option Char) : Bool :=
  match next with
  | none => true
  | some c => !isWordChar c

/-- Whether `\b(name)\b` matches at the start of `s`, where `prevWord` records
whether the character of the original string just before `s` is a word
character (`false` at the start of the string). -/
def matchHere (name : List Char) (prevWord : Bool) (s : List Char) : Bool :=
  !name.isEmpty && !prevWord && name.isPrefixOf s && boundaryOk (s.drop name.length).head?

def substParamAux (name repl : List Char) : Nat → Bool → List Char → List Char
  | 0, _, s => s
  | _ + 1, _, [] => []
  | fuel + 1, prevWord, c :: rest =>
    if matchHere name prevWord (c :: rest) then
      repl ++ substParamAux name repl fuel (isWordChar (name.getLastD ' '))
        ((c :: rest).drop name.length)
    else
      c :: substParamAux name repl fuel (isWordChar c) rest

/-- The substitution scan started in an arbitrary previous-character context. -/
def substParamFrom (name repl : List Char) (prevWord : Bool) (s : List Char) : List Char :=
  substParamAux name repl s.length prevWord s

/-- One pass of `re.sub(r'\b(name)\b', repl, s)`. -/
def substParam (name repl s : List Char) : List Char := substParamFrom name repl false s

/-- Position of the first word-boundary match of `name` in `s`, in the given
previous-character context. -/
def firstMatchPosAux (name : List Char) : Nat → Bool → List Char → Option Nat
  | 0, _, _ => none
  | _ + 1, _, [] => none
  | fuel + 1, prevWord, c :: rest =>
    if matchHere name prevWord (c :: rest) then some 0
    else (firstMatchPosAux name fuel (isWordChar c) rest).map (· + 1)

def firstMatchPos (name : List Char) (prevWord : Bool) (s : List Char) : Option Nat :=
  firstMatchPosAux name s.length prevWord s

/-! ### The translation pipeline (source lines 141-146) -/

/-- One line `ydot[%d] = %s;` of the pre-substitution equation text
(source lines 141-142); the symbolic ODE right-hand side is taken as the
string produced for it by `sympy.ccode`. -/
def codeEqLine (i : Nat) (ode : List Char) : List Char :=
  "ydot[".data ++ (Nat.repr i).data ++ "] = ".data ++ ode ++ [';']

def joinWithNewline : List (List Char) → List Char
  | [] => []
  | [l] => l
  | l :: ls => l ++ '\n' :: joinWithNewline ls

def codeEqsText (odes : List (List Char)) : List Char :=
  joinWithNewline (odes.enum.map (fun p => codeEqLine p.1 p.2))

/-- The parameter loop of source lines 145-146: for each parameter, in
declaration order, substitute `p[i]` for whole-token occurrences of its
name. -/
def applyParamSubst (params : List (List Char)) (s : List Char) : List Char :=
  params.enum.foldl
    (fun acc p => substParam p.2 ("p[".data ++ (Nat.repr p.1).data ++ "]".data) acc) s

/-- The full translation of source lines 141-146: build the equation text,
apply the species-marker substitution, then the parameter substitutions. -/
def translateEqs (params : List (List Char)) (odes : List (List Char)) : List Char :=
  applyParamSubst params (substSpecies (codeEqsText odes))

/-! ### The `pad` helper and `textwrap.dedent` (source lines 111-116)

`pad` dedents a multi-line string, inserts `depth` spaces at every line start
(the Python 2 regex `^(?m)` also matches after a trailing newline), and
appends a final newline.  `dedent` is the Python 2.7 `textwrap.dedent`: lines
consisting solely of spaces and tabs are first emptied, then the common
space-tab margin of the remaining lines bearing content is computed (margins
are compared by the prefix relation; incomparable margins collapse to the
empty margin) and removed from every line it prefixes. -/

def isSpTab (c : Char) : Bool := c == ' ' || c == '\t'

def splitNl : List Char → List (List Char)
  | [] => [[]]
  | c :: rest =>
    if c = '\n' then [] :: splitNl rest
    else
      match splitNl rest with
      | l :: ls => (c :: l) :: ls
      | [] => [[c]]

def wsOnlyLine (l : List Char) : Bool := !l.isEmpty && l.all isSpTab

def blankWsLines (s : List Char) : List Char :=
  joinWithNewline ((splitNl s).map (fun l => if wsOnlyLine l then [] else l))

def lineIndents (s : List Char) : List (List Char) :=
  (splitNl s).filterMap
    (fun l => if (l.dropWhile isSpTab).isEmpty then none else some (l.takeWhile isSpTab))

def chooseMargin : Option (List Char) → List (List Char) → Option (List Char)
  | m, [] => m
  | none, i :: rest => chooseMargin (some i) rest
  | some m, i :: rest =>
    if m.isPrefixOf i then chooseMargin (some m) rest
    else if i.isPrefixOf m then chooseMargin (some i) rest
    else some []

def removeMargin (m : List Char) (s : List Char) : List Char :=
  joinWithNewline ((splitNl s).map (fun l => if m.isPrefixOf l then l.drop m.length else l))

def dedent (s : List Char) : List Char :=
  let t := blankWsLines s
  match chooseMargin none (lineIndents t) with
  | some m => if m.isEmpty then t else removeMargin m t
  | none => t

def indentAfterNl (d : Nat) : List Char → List Char
  | [] => []
  | c :: rest =>
    if c = '\n' then c :: (List.replicate d ' ' ++ indentAfterNl d rest)
    else c :: indentAfterNl d rest

def indentEveryLine (d : Nat) (s : List Char) : List Char :=
  List.replicate d ' ' ++ indentAfterNl d s

def pad (s : List Char) (depth : Nat) : List Char :=
  indentEveryLine depth (dedent s) ++ ['\n']

/-- Python `str.strip()`: remove leading and trailing whitespace. -/
def isPyWs (c : Char) : Bool :=
  c == ' ' || c == '\t' || c == '\n' || c == '\r' || c == '\x0b' || c == '\x0c'

def pyStrip (s : List Char) : List Char :=
  ((s.dropWhile isPyWs).reverse.dropWhile isPyWs).reverse

/-! ### The translated-equations text embedded in the two `ode_rhs` bodies
(source lines 215-228)

The fast-path body receives `pad('\n' + code_eqs, 16) + ' ' * 16` as the text
placed inside the `scipy.weave.inline` raw string; the interpreted body
receives `pad('\n' + code_eqs, 12).replace(';', '').strip()`.  The fixed
template text around each insertion point (the call convention) contains no
semicolon and no equation content. -/

def fastEqsEmbedded (code_eqs : List Char) : List Char :=
  pad ('\n' :: code_eqs) 16 ++ List.replicate 16 ' '

def interpEqsEmbedded (code_eqs : List Char) : List Char :=
  pyStrip ((pad ('\n' :: code_eqs) 12).filter (fun c => !(c == ';')))

/-- The characters carrying equation content: everything except whitespace
and the statement-terminating semicolons. -/
def keepC2 (c : Char) : Bool := !(isPyWs c || c == ';')

/-! ### The load-time capability probe (source lines 159-166)

    _use_inline = False
    try:
        scipy.weave.inline('int i;', force=1)
        _use_inline = True
    except distutils.errors.CompileError:
        pass

The external `scipy.weave.inline` call is abstracted as an outcome: it either
returns, raises `distutils.errors.CompileError` (covering subclasses), or
raises an exception of any other kind.  The probe yields the final value of
`_use_inline` when the generated module loads, and propagates the exception
(aborting the load) otherwise. -/

inductive ProbeOutcome where
  | success
  | raisedCompileError
  | raisedOther (kind : List Char)
deriving DecidableEq

def probeUseInline : ProbeOutcome → Except (List Char) Bool
  | .success => .ok true
  | .raisedCompileError => .ok false
  | .raisedOther kind => .error kind

/-! ### The generated simulation harness (source lines 174-274)

The generated `Model` class owns fixed-shape record tables populated at
construction time and per-instance numeric buffers.  Scalars (numpy floats in
the source) are modelled as exact integers; the verified properties use only
ring operations and equality.  numpy array identity is modelled by an
allocation tag: each fresh array receives a tag from a per-instance counter,
and in-place updates preserve the tag.  The contents of `numpy.empty` are
unspecified; they are modelled as zeros, and no verified property depends on
them (every cell read is first written).  The external stiff integrator is
abstracted as an oracle mapping each loop iteration `t >= 1` to either the
integrated state row (the loop guard held and `integrate(tspan[t])`
succeeded) or `none` (the guard failed, ending the loop). -/

namespace Gen

structure Parameter where
  name : List Char
  value : ℤ
deriving DecidableEq

structure Observable where
  name : List Char
  species : List Nat
  coefficients : List ℤ
deriving DecidableEq

structure Initial where
  param_index : Nat
  species_index : Nat
deriving DecidableEq

structure Buf where
  tag : Nat
  data : List (List ℤ)
deriving DecidableEq

structure Model where
  parameters : List Parameter
  observables : List Observable
  initial_conditions : List Initial
  y0 : List ℤ
  ydot : List ℤ
  sim_param_values : List ℤ
  y : Option Buf
  yobs : Option Buf
  allocCount : Nat
deriving DecidableEq

/-- The generated `__init__` (source lines 181-213): buffers sized to the
exported model, record tables baked in, trajectory caches absent. -/
def Model.init (numSpecies : Nat) (ps : List Parameter) (obs : List Observable)
    (ics : List Initial) : Model :=
  { parameters := ps
    observables := obs
    initial_conditions := ics
    y0 := List.replicate numSpecies 0
    ydot := List.replicate numSpecies 0
    sim_param_values := List.replicate ps.length 0
    y := none
    yobs := none
    allocCount := 0 }

/-- A trajectory array returned by `simulate`: either a read-only view
aliasing the internal buffer with the recorded tag, or a fresh writable copy
aliasing nothing (`aliasTag = none`). -/
structure OutArr where
  aliasTag : Option Nat
  writable : Bool
  data : List (List ℤ)
deriving DecidableEq

/-- An attempted element assignment into a returned array; numpy raises on
arrays whose writeable flag is cleared. -/
def OutArr.write (a : OutArr) (i j : Nat) (v : ℤ) : Except (List Char) OutArr :=
  if a.writable then
    .ok { a with data := a.data.set i ((a.data.getD i []).set j v) }
  else .error "assignment destination is read-only".data

/-- The integration loop of source lines 259-262: starting at row `t = 1`,
write each successful integration result and stop at the first failed guard.
`rem` counts the rows that may still be written. -/
def fillRowsAux (oracle : Nat → Option (List ℤ)) : Nat → Nat → List (List ℤ) → List (List ℤ)
  | 0, _, y => y
  | rem + 1, t, y =>
    match oracle t with
    | some row => fillRowsAux oracle rem (t + 1) (y.set t row)
    | none => y

def fillRows (oracle : Nat → Option (List ℤ)) (nrows : Nat) (y : List (List ℤ)) :
    List (List ℤ) :=
  fillRowsAux oracle (nrows - 1) 1 y

/-- One observable value for one trajectory row (source lines 263-265):
`(self.y[:, obs.species] * obs.coefficients).sum(1)` picks the species
columns, multiplies elementwise by the coefficients and sums. -/
def obsValue (row : List ℤ) (ob : Observable) : ℤ :=
  (((ob.species.map (fun s => row.getD s 0)).zip ob.coefficients).map
    (fun yc => yc.1 * yc.2)).sum

/-- The buffer test of source line 245: `self.y is None or len(tspan) != len(self.y)`. -/
def reallocNeeded (st : Model) (tspan : List ℤ) : Bool :=
  match st.y with
  | none => true
  | some yb => tspan.length != yb.data.length

/-- The part of `simulate` after the parameter vector has been assigned
(source lines 242-274), with `spv` the effective parameter values. -/
def simulateFrom (st : Model) (oracle : Nat → Option (List ℤ)) (tspan : List ℤ)
    (spv : List ℤ) (view : Bool) : Model × Except (List Char) (OutArr × OutArr) :=
  let y0 := st.initial_conditions.foldl
    (fun v ic => v.set ic.species_index (spv.getD ic.param_index 0))
    (List.replicate st.y0.length (0 : ℤ))
  let bufs :=
    if reallocNeeded st tspan then
      (Buf.mk st.allocCount (List.replicate tspan.length (List.replicate st.y0.length 0)),
       Buf.mk (st.allocCount + 1)
         (List.replicate tspan.length (List.replicate st.observables.length 0)),
       st.allocCount + 2)
    else (st.y.getD (Buf.mk 0 []), st.yobs.getD (Buf.mk 0 []), st.allocCount)
  match bufs with
  | (ybuf, yobsbuf, cnt) =>
    let ydata := fillRows oracle tspan.length (ybuf.data.set 0 y0)
    let yobsdata := ydata.map (fun row => st.observables.map (obsValue row))
    let st2 : Model := { st with
      sim_param_values := spv
      y0 := y0
      y := some (Buf.mk ybuf.tag ydata)
      yobs := some (Buf.mk yobsbuf.tag yobsdata)
      allocCount := cnt }
    if view then
      (st2, .ok (OutArr.mk (some ybuf.tag) false ydata,
                 OutArr.mk (some yobsbuf.tag) false yobsdata))
    else
      (st2, .ok (OutArr.mk none true ydata, OutArr.mk none true yobsdata))

/-- The generated `simulate` (source lines 232-274).  The length check on an
override parameter vector happens before any buffer is touched; on mismatch
the call raises and the instance is returned unchanged. -/
def simulate (st : Model) (oracle : Nat → Option (List ℤ)) (tspan : List ℤ)
    (param_values : Option (List ℤ)) (view : Bool) :
    Model × Except (List Char) (OutArr × OutArr) :=
  match param_values with
  | some pv =>
    if pv.length ≠ st.parameters.length then
      (st, .error ("param_values must have length ".data
        ++ (Nat.repr st.parameters.length).data))
    else simulateFrom st oracle tspan pv view
  | none => simulateFrom st oracle tspan (st.parameters.map Parameter.value) view

/-! Named components of one `simulate` call, used to state its result. -/

/-- The initial-state assembly of source lines 242-244: zero-fill, then bind
every initial condition. -/
def initState (st : Model) (spv : List ℤ) : List ℤ :=
  st.initial_conditions.foldl
    (fun v ic => v.set ic.species_index (spv.getD ic.param_index 0))
    (List.replicate st.y0.length (0 : ℤ))

/-- The species-trajectory buffer used by a call: fresh when reallocation is
needed, otherwise the cached one. -/
def yBufAfter (st : Model) (tspan : List ℤ) : Buf :=
  if reallocNeeded st tspan then
    Buf.mk st.allocCount (List.replicate tspan.length (List.replicate st.y0.length 0))
  else st.y.getD (Buf.mk 0 [])

def yobsBufAfter (st : Model) (tspan : List ℤ) : Buf :=
  if reallocNeeded st tspan then
    Buf.mk (st.allocCount + 1)
      (List.replicate tspan.length (List.replicate st.observables.length 0))
  else st.yobs.getD (Buf.mk 0 [])

def cntAfter (st : Model) (tspan : List ℤ) : Nat :=
  if reallocNeeded st tspan then st.allocCount + 2 else st.allocCount

def ydataAfter (st : Model) (oracle : Nat → Option (List ℤ)) (tspan : List ℤ)
    (spv : List ℤ) : List (List ℤ) :=
  fillRows oracle tspan.length ((yBufAfter st tspan).data.set 0 (initState st spv))

def yobsdataAfter (st : Model) (oracle : Nat → Option (List ℤ)) (tspan : List ℤ)
    (spv : List ℤ) : List (List ℤ) :=
  (ydataAfter st oracle tspan spv).map (fun row => st.observables.map (obsValue row))

/-- The effective parameter vector of a validated call: the override when one
is supplied, the nominal baked-in values otherwise. -/
def effectiveParams (st : Model) (param_values : Option (List ℤ)) : List ℤ :=
  match param_values with
  | some pv => pv
  | none => st.parameters.map Parameter.value

end Gen

/-! ### Concrete fixtures used by the witness theorems: a two-species model
with parameters `k1 = 5`, `k2 = 7`, one observable over species 0 and 1 with
coefficients 2 and 3, one initial condition binding species 0 to parameter 0,
and an integrator oracle that succeeds at the first step with row `[4, 6]`
and stops afterwards. -/

namespace Fixture

def st0 : Gen.Model :=
  Gen.Model.init 2 [⟨"k1".data, 5⟩, ⟨"k2".data, 7⟩]
    [⟨"ab".data, [0, 1], [2, 3]⟩] [⟨0, 0⟩]

def orc : Nat → Option (List ℤ) := fun t => if t = 1 then some [4, 6] else none

def run1 : Gen.Model × Except (List Char) (Gen.OutArr × Gen.OutArr) :=
  Gen.simulate st0 orc [0, 1, 2] none false

def st1 : Gen.Model := run1.1

def outs1 : Gen.OutArr × Gen.OutArr :=
  run1.2.toOption.getD (⟨none, false, []⟩, ⟨none, false, []⟩)

def run2 : Gen.Model × Except (List Char) (Gen.OutArr × Gen.OutArr) :=
  Gen.simulate st1 (fun _ => none) [0, 1, 2] none false

def st2 : Gen.Model := run2.1

def outs2 : Gen.OutArr × Gen.OutArr :=
  run2.2.toOption.getD (⟨none, false, []⟩, ⟨none, false, []⟩)

def b1 : Gen.Buf := st1.y.getD ⟨0, []⟩

def b2 : Gen.Buf := st2.y.getD ⟨0, []⟩

def ob1 : Gen.Buf := st1.yobs.getD ⟨0, []⟩

def ob2 : Gen.Buf := st2.yobs.getD ⟨0, []⟩

def runV : Gen.Model × Except (List Char) (Gen.OutArr × Gen.OutArr) :=
  Gen.simulate st0 orc [0, 1, 2] none true

def stV : Gen.Model := runV.1

def outsV : Gen.OutArr × Gen.OutArr :=
  runV.2.toOption.getD (⟨none, false, []⟩, ⟨none, false, []⟩)

/-- An instance that has just been run with an override parameter vector. -/
def stOv : Gen.Model := (Gen.simulate st0 orc [0, 1, 2] (some [100, 200]) false).1

end Fixture

/-! ### Scanner lemmas -/

theorem dropWhile_length_le (p : Char → Bool) (l : List Char) :
    (l.dropWhile p).length ≤ l.length := by
  induction l with
  | nil => simp [List.dropWhile]
  | cons c rest ih =>
    simp only [List.dropWhile]
    split
    · exact Nat.le_succ_of_le ih
    · simp

theorem takeWhile_append_all (p : Char → Bool) (ds rest : List Char)
    (hds : ∀ c ∈ ds, p c = true) (hrest : ∀ c, rest.head? = some c → p c = false) :
    (ds ++ rest).takeWhile p = ds := by
  induction ds with
  | nil =>
    cases rest with
    | nil => rfl
    | cons c t =>
      simp only [List.nil_append, List.takeWhile]
      rw [hrest c rfl]
  | cons d ds ih =>
    simp only [List.cons_append, List.takeWhile]
    rw [hds d (by simp)]
    simp only [List.cons.injEq, true_and]
    exact ih (fun c hc => hds c (by simp [hc]))

theorem dropWhile_append_all (p : Char → Bool) (ds rest : List Char)
    (hds : ∀ c ∈ ds, p c = true) (hrest : ∀ c, rest.head? = some c → p c = false) :
    (ds ++ rest).dropWhile p = rest := by
  induction ds with
  | nil =>
    cases rest with
    | nil => rfl
    | cons c t =>
      simp only [List.nil_append, List.dropWhile]
      rw [hrest c rfl]
  | cons d ds ih =>
    simp only [List.cons_append, List.dropWhile]
    rw [hds d (by simp)]
    exact ih (fun c hc => hds c (by simp [hc]))

theorem substSpeciesAux_congr :
    ∀ (f1 : Nat), ∀ (s : List Char) (f2 : Nat), s.length ≤ f1 → s.length ≤ f2 →
      substSpeciesAux f1 s = substSpeciesAux f2 s := by
  intro f1
  induction f1 with
  | zero =>
    intro s f2 h1 _
    have : s = [] := List.eq_nil_of_length_eq_zero (Nat.le_zero.mp h1)
    subst this
    cases f2 <;> rfl
  | succ a ih =>
    intro s f2 h1 h2
    cases s with
    | nil => cases f2 <;> rfl
    | cons c rest =>
      cases f2 with
      | zero => simp at h2
      | succ b =>
        simp only [substSpeciesAux]
        split
        · have hd : (rest.dropWhile Char.isDigit).length ≤ rest.length :=
            dropWhile_length_le _ _
          have hlen : rest.length ≤ a := by simpa using h1
          have hlen2 : rest.length ≤ b := by simpa using h2
          rw [ih (rest.dropWhile Char.isDigit) b (Nat.le_trans hd hlen) (Nat.le_trans hd hlen2)]
        · have hlen : rest.length ≤ a := by simpa using h1
          have hlen2 : rest.length ≤ b := by simpa using h2
          rw [ih rest b hlen hlen2]

theorem substSpecies_marker (ds rest : List Char) (hne : ds ≠ [])
    (hds : ∀ c ∈ ds, c.isDigit = true)
    (hrest : ∀ c, rest.head? = some c → c.isDigit = false) :
    substSpecies ('s' :: (ds ++ rest)) =
      'y' :: '[' :: ((Nat.repr (digitsToNat ds)).data ++ (']' :: substSpecies rest)) := by
  cases ds with
  | nil => exact absurd rfl hne
  | cons d ds =>
    show substSpeciesAux (('s' :: ((d :: ds) ++ rest)).length) ('s' :: ((d :: ds) ++ rest)) = _
    simp only [List.length_cons, List.length_append]
    simp only [substSpeciesAux]
    rw [if_pos]
    · rw [takeWhile_append_all Char.isDigit (d :: ds) rest hds hrest,
        dropWhile_append_all Char.isDigit (d :: ds) rest hds hrest]
      have h : substSpeciesAux (ds.length + 1 + rest.length) rest
          = substSpeciesAux rest.length rest :=
        substSpeciesAux_congr _ rest rest.length (Nat.le_add_left _ _) (Nat.le_refl _)
      rw [h]
      rfl
    · refine ⟨trivial, ?_⟩
      simp only [List.cons_append, List.head?, Option.map_some, Option.getD_some]
      exact hds d (by simp)



theorem matchHere_elim {name : List Char} {prevWord : Bool} {s : List Char}
    (h : matchHere name prevWord s = true) :
    name.isEmpty = false ∧ prevWord = false ∧ name.isPrefixOf s = true ∧
      boundaryOk ((s.drop name.length).head?) = true := by
  unfold matchHere at h
  simp only [Bool.and_eq_true, Bool.not_eq_true'] at h
  exact ⟨h.1.1.1, h.1.1.2, h.1.2, h.2⟩

theorem matchHere_name_pos {name : List Char} {prevWord : Bool} {s : List Char}
    (h : matchHere name prevWord s = true) : 1 ≤ name.length := by
  have h1 := (matchHere_elim h).1
  cases name with
  | nil => simp at h1
  | cons c t => simp

theorem substParamAux_congr (name repl : List Char) :
    ∀ (f1 : Nat), ∀ (s : List Char) (f2 : Nat) (prevWord : Bool),
      s.length ≤ f1 → s.length ≤ f2 →
      substParamAux name repl f1 prevWord s = substParamAux name repl f2 prevWord s := by
  intro f1
  induction f1 with
  | zero =>
    intro s f2 prevWord h1 _
    have hs : s = [] := List.eq_nil_of_length_eq_zero (Nat.le_zero.mp h1)
    subst hs
    cases f2 <;> rfl
  | succ a ih =>
    intro s f2 prevWord h1 h2
    cases s with
    | nil => cases f2 <;> rfl
    | cons c rest =>
      cases f2 with
      | zero => simp at h2
      | succ b =>
        have hlen : rest.length ≤ a := by simpa using h1
        have hlen2 : rest.length ≤ b := by simpa using h2
        simp only [substParamAux]
        split
        · rename_i hm
          have hn : 1 ≤ name.length := matchHere_name_pos hm
          have hd : ((c :: rest).drop name.length).length ≤ rest.length := by
            simp only [List.length_drop, List.length_cons]
            omega
          rw [ih ((c :: rest).drop name.length) b _ (Nat.le_trans hd hlen)
            (Nat.le_trans hd hlen2)]
        · rw [ih rest b (isWordChar c) hlen hlen2]

theorem substParamAux_no_match (name repl : List Char) :
    ∀ (f : Nat) (s : List Char) (prevWord : Bool), s.length ≤ f →
      firstMatchPosAux name f prevWord s = none →
      substParamAux name repl f prevWord s = s := by
  intro f
  induction f with
  | zero => intro s prevWord _ _; rfl
  | succ a ih =>
    intro s prevWord h1 h2
    cases s with
    | nil => rfl
    | cons c rest =>
      have hlen : rest.length ≤ a := by simpa using h1
      by_cases hm : matchHere name prevWord (c :: rest) = true
      · simp [firstMatchPosAux, hm] at h2
      · have hm' : matchHere name prevWord (c :: rest) = false := by
          simpa using hm
        simp only [firstMatchPosAux, hm', Bool.false_eq_true, if_false,
          Option.map_eq_none'] at h2
        simp only [substParamAux, hm', Bool.false_eq_true, if_false]
        rw [ih rest (isWordChar c) hlen h2]

theorem substParamAux_match (name repl : List Char) :
    ∀ (f : Nat) (s : List Char) (prevWord : Bool) (k : Nat), s.length ≤ f →
      firstMatchPosAux name f prevWord s = some k →
      substParamAux name repl f prevWord s =
        s.take k ++ repl ++
          substParamFrom name repl (isWordChar (name.getLastD ' '))
            (s.drop (k + name.length)) := by
  intro f
  induction f with
  | zero =>
    intro s prevWord k _ h2
    simp [firstMatchPosAux] at h2
  | succ a ih =>
    intro s prevWord k h1 h2
    cases s with
    | nil => simp [firstMatchPosAux] at h2
    | cons c rest =>
      have hlen : rest.length ≤ a := by simpa using h1
      by_cases hm : matchHere name prevWord (c :: rest) = true
      · have hk : k = 0 := by
          simp [firstMatchPosAux, hm] at h2
          omega
        subst hk
        have hn : 1 ≤ name.length := matchHere_name_pos hm
        have hd : ((c :: rest).drop name.length).length ≤ rest.length := by
          simp only [List.length_drop, List.length_cons]
          omega
        simp only [substParamAux, hm, if_true, List.take_zero, List.nil_append,
          Nat.zero_add]
        rw [substParamAux_congr name repl a ((c :: rest).drop name.length)
          ((c :: rest).drop name.length).length _ (Nat.le_trans hd hlen) (Nat.le_refl _)]
        rfl
      · have hm' : matchHere name prevWord (c :: rest) = false := by simpa using hm
        simp only [firstMatchPosAux, hm', Bool.false_eq_true, if_false,
          Option.map_eq_some'] at h2
        obtain ⟨k', hk', hkk⟩ := h2
        subst hkk
        simp only [substParamAux, hm', Bool.false_eq_true, if_false]
        rw [ih rest (isWordChar c) k' hlen hk']
        simp only [List.take_succ_cons, List.cons_append, List.append_assoc]
        have : (c :: rest).drop (k' + 1 + name.length) = rest.drop (k' + name.length) := by
          have : k' + 1 + name.length = (k' + name.length) + 1 := by omega
          rw [this, List.drop_succ_cons]
        rw [this]

/-! ### Claim C1 -/

/-- C1 counterexample: the claim states that no token merely containing
`s<digits>` as a substring, such as a parameter name `ks1`, is ever altered
by the species-marker substitution.  The substitution regex `s(\d+)` carries
no word-boundary anchor, and rewrites `ks1` to `ky[1]`. -/
theorem c1_species_subst_counterexample :
    substSpecies "ks1".data ≠ "ks1".data ∧ substSpecies "ks1".data = "ky[1]".data := by
  exact ⟨by decide, by decide⟩

/-- C1 (amended): the species-marker substitution replaces each occurrence of
`s` followed by a maximal run of digits with `y[v]`, `v` the decimal value of
the run; because the digit run is consumed greedily, marker `s1` is never
matched inside marker `s12` and multi-digit indices are handled correctly.
The match is however not anchored at a word boundary on the left, so a token
that contains `s<digits>` with a non-digit on its right, such as the
parameter name `ks1`, has that part rewritten (`ks1` becomes `ky[1]`). -/
theorem c1_species_subst_amended :
    (∀ ds rest, ds ≠ [] → (∀ c ∈ ds, c.isDigit = true) →
      (∀ c, rest.head? = some c → c.isDigit = false) →
      substSpecies ('s' :: (ds ++ rest)) =
        'y' :: '[' :: ((Nat.repr (digitsToNat ds)).data ++ (']' :: substSpecies rest)))
    ∧ substSpecies "s12".data = "y[12]".data
    ∧ substSpecies "ks1".data = "ky[1]".data :=
  ⟨substSpecies_marker, by decide, by decide⟩

/-- C1 witness: the general marker equation of the amended claim, instantiated
at the two-digit marker `s12` followed by the tail `+ks1`. -/
theorem c1_species_subst_witness :
    substSpecies ('s' :: ("12".data ++ "+ks1".data)) =
      'y' :: '[' :: ((Nat.repr (digitsToNat "12".data)).data
        ++ (']' :: substSpecies "+ks1".data)) :=
  c1_species_subst_amended.1 "12".data "+ks1".data (by decide) (by decide) (by decide)

/-! ### Claim C3 -/

/-- C3: parameter-name substitution is whole-token and word-boundary anchored,
and is applied to the output of the species-marker substitution.  The first
conjunct records the pipeline order (species markers first, then each
parameter name replaced by `p[i]` at the position `i` of that parameter).
The second and third conjuncts characterise one substitution pass completely:
where no word-boundary match of the name exists the string is untouched, and
at the first word-boundary match exactly the name is replaced by the
replacement text, scanning resuming after it.  The fourth conjunct shows a
name immediately followed by a further word character (as `k1` inside `k10`)
is never a match, and the fifth that a name immediately preceded by a word
character is never a match; the last conjunct is the prefix-collision example
of the claim. -/
theorem c3_param_subst_theorem :
    (∀ ps odes, translateEqs ps odes = applyParamSubst ps (substSpecies (codeEqsText odes)))
    ∧ (∀ name repl s prevWord, firstMatchPos name prevWord s = none →
        substParamFrom name repl prevWord s = s)
    ∧ (∀ name repl s prevWord k, firstMatchPos name prevWord s = some k →
        substParamFrom name repl prevWord s =
          s.take k ++ repl ++
            substParamFrom name repl (isWordChar (name.getLastD ' '))
              (s.drop (k + name.length)))
    ∧ (∀ name prevWord c tail, isWordChar c = true →
        matchHere name prevWord (name ++ c :: tail) = false)
    ∧ (∀ name s, matchHere name true s = false)
    ∧ substParam "k1".data "p[0]".data "k1*k10 + k10*k1".data
        = "p[0]*k10 + k10*p[0]".data := by
  refine ⟨fun ps odes => rfl, ?_, ?_, ?_, ?_, by decide⟩
  · intro name repl s prevWord h
    exact substParamAux_no_match name repl s.length s prevWord (Nat.le_refl _) h
  · intro name repl s prevWord k h
    exact substParamAux_match name repl s.length s prevWord k (Nat.le_refl _) h
  · intro name prevWord c tail h
    simp [matchHere, boundaryOk, List.drop_left, h]
  · intro name s
    simp [matchHere]

/-- C3 witness: the replacement equation of the third conjunct instantiated at
parameter name `k1`, replacement `p[0]`, subject `k1*k10`, where the first
word-boundary match is at position 0. -/
theorem c3_param_subst_witness :
    substParamFrom "k1".data "p[0]".data false "k1*k10".data =
      ("k1*k10".data.take 0) ++ "p[0]".data ++
        substParamFrom "k1".data "p[0]".data (isWordChar ("k1".data.getLastD ' '))
          ("k1*k10".data.drop (0 + "k1".data.length)) :=
  c3_param_subst_theorem.2.2.1 "k1".data "p[0]".data "k1*k10".data false 0 (by decide)

/-! ### Emitter lemmas: `pad`, `dedent` and `strip` only move whitespace -/

theorem filter_replicate_space (p : Char → Bool) (hp : p ' ' = false) (d : Nat) :
    (List.replicate d ' ').filter p = [] := by
  induction d with
  | zero => rfl
  | succ n ih => simp [List.replicate_succ, List.filter_cons, hp, ih]

theorem splitNl_ne_nil (s : List Char) : splitNl s ≠ [] := by
  cases s with
  | nil => simp [splitNl]
  | cons c rest =>
    simp only [splitNl]
    split
    · simp
    · cases hs : splitNl rest with
      | nil => simp
      | cons l ls => simp

theorem filter_joinWithNewline (p : Char → Bool) (hp : p '\n' = false) :
    ∀ ls : List (List Char),
      (joinWithNewline ls).filter p = (ls.map (List.filter p)).flatten := by
  intro ls
  induction ls with
  | nil => rfl
  | cons l ls ih =>
    cases ls with
    | nil => simp [joinWithNewline]
    | cons l2 ls2 =>
      simp only [joinWithNewline, List.map_cons, List.flatten] at ih ⊢
      rw [List.filter_append, List.filter_cons, hp, ih]
      simp

theorem joinWithNewline_splitNl : ∀ s : List Char, joinWithNewline (splitNl s) = s := by
  intro s
  induction s with
  | nil => rfl
  | cons c rest ih =>
    by_cases h : c = '\n'
    · subst h
      simp only [splitNl, if_pos rfl]
      cases hs : splitNl rest with
      | nil => exact absurd hs (splitNl_ne_nil rest)
      | cons l ls =>
        rw [hs] at ih
        show '\n' :: joinWithNewline (l :: ls) = '\n' :: rest
        rw [ih]
    · simp only [splitNl, if_neg h]
      cases hs : splitNl rest with
      | nil => exact absurd hs (splitNl_ne_nil rest)
      | cons l ls =>
        rw [hs] at ih
        cases ls with
        | nil =>
          simp only [joinWithNewline] at ih ⊢
          rw [ih]
        | cons l2 ls2 =>
          simp only [joinWithNewline] at ih ⊢
          rw [List.cons_append, ih]

theorem filter_mapped_lines (p : Char → Bool) (hp : p '\n' = false)
    (f : List Char → List Char) (s : List Char)
    (hf : ∀ l, (f l).filter p = l.filter p) :
    (joinWithNewline ((splitNl s).map f)).filter p = s.filter p := by
  rw [filter_joinWithNewline p hp, List.map_map]
  have h1 : ((splitNl s).map (List.filter p ∘ f)) = (splitNl s).map (List.filter p) := by
    apply List.map_congr_left
    intro l _
    exact hf l
  rw [h1, ← filter_joinWithNewline p hp, joinWithNewline_splitNl]

theorem filter_of_all_spTab (p : Char → Bool)
    (hp : ∀ c, isSpTab c = true → p c = false) :
    ∀ l : List Char, l.all isSpTab = true → l.filter p = [] := by
  intro l
  induction l with
  | nil => intro _; rfl
  | cons c rest ih =>
    intro h
    simp only [List.all_cons, Bool.and_eq_true] at h
    simp [List.filter_cons, hp c h.1, ih h.2]

theorem mem_takeWhile_spTab (l : List Char) :
    ∀ c ∈ l.takeWhile isSpTab, isSpTab c = true := by
  induction l with
  | nil => intro c hc; simp [List.takeWhile] at hc
  | cons d rest ih =>
    intro c hc
    simp only [List.takeWhile] at hc
    cases hd : isSpTab d with
    | false => rw [hd] at hc; simp at hc
    | true =>
      rw [hd] at hc
      simp only [List.mem_cons] at hc
      cases hc with
      | inl h => rw [h]; exact hd
      | inr h => exact ih c h

theorem lineIndents_all_spTab (s : List Char) :
    ∀ m ∈ lineIndents s, m.all isSpTab = true := by
  intro m hm
  unfold lineIndents at hm
  simp only [List.mem_filterMap] at hm
  obtain ⟨l, _, hl⟩ := hm
  cases h : (l.dropWhile isSpTab).isEmpty with
  | true => rw [if_pos h] at hl; exact absurd hl (by simp)
  | false =>
    rw [if_neg (by rw [h]; simp)] at hl
    rw [Option.some.injEq] at hl
    subst hl
    simp only [List.all_eq_true]
    exact mem_takeWhile_spTab l

theorem chooseMargin_all_spTab :
    ∀ (ms : List (List Char)) (acc : Option (List Char)),
      (∀ m0, acc = some m0 → m0.all isSpTab = true) →
      (∀ i ∈ ms, i.all isSpTab = true) →
      ∀ m, chooseMargin acc ms = some m → m.all isSpTab = true := by
  intro ms
  induction ms with
  | nil =>
    intro acc hacc _ m hm
    cases acc with
    | none => exact absurd hm (by simp [chooseMargin])
    | some m0 =>
      simp only [chooseMargin, Option.some.injEq] at hm
      rw [← hm]
      exact hacc m0 rfl
  | cons i rest ih =>
    intro acc hacc his m hm
    have hi : i.all isSpTab = true := his i (by simp)
    have hrest : ∀ j ∈ rest, j.all isSpTab = true := fun j hj => his j (by simp [hj])
    cases acc with
    | none =>
      simp only [chooseMargin] at hm
      exact ih (some i)
        (fun m0 h => by rw [Option.some.injEq] at h; rw [← h]; exact hi) hrest m hm
    | some m0 =>
      simp only [chooseMargin] at hm
      split at hm
      · exact ih (some m0)
          (fun m1 h => by rw [Option.some.injEq] at h; rw [← h]; exact hacc m0 rfl)
          hrest m hm
      · split at hm
        · exact ih (some i)
            (fun m1 h => by rw [Option.some.injEq] at h; rw [← h]; exact hi) hrest m hm
        · rw [Option.some.injEq] at hm
          rw [← hm]
          rfl

theorem dedent_unfold (s : List Char) :
    dedent s =
      match chooseMargin none (lineIndents (blankWsLines s)) with
      | some m => if m.isEmpty then blankWsLines s else removeMargin m (blankWsLines s)
      | none => blankWsLines s := rfl

theorem filter_dedent (p : Char → Bool) (hsp : ∀ c, isSpTab c = true → p c = false)
    (hnl : p '\n' = false) (s : List Char) : (dedent s).filter p = s.filter p := by
  have hblank : (blankWsLines s).filter p = s.filter p := by
    unfold blankWsLines
    apply filter_mapped_lines p hnl
    intro l
    by_cases h : wsOnlyLine l = true
    · rw [if_pos h]
      unfold wsOnlyLine at h
      simp only [Bool.and_eq_true] at h
      rw [filter_of_all_spTab p hsp l h.2]
      rfl
    · rw [if_neg h]
  rw [dedent_unfold]
  cases hc : chooseMargin none (lineIndents (blankWsLines s)) with
  | none => exact hblank
  | some m =>
    simp only
    by_cases hme : m.isEmpty = true
    · rw [if_pos hme]
      exact hblank
    · rw [if_neg hme]
      have hm : m.all isSpTab = true :=
        chooseMargin_all_spTab _ none (fun m0 h => by simp at h)
          (lineIndents_all_spTab _) m hc
      unfold removeMargin
      rw [filter_mapped_lines p hnl _ _ ?_]
      · exact hblank
      · intro l
        by_cases hpre : m.isPrefixOf l = true
        · rw [if_pos hpre]
          obtain ⟨t, ht⟩ := List.isPrefixOf_iff_prefix.mp hpre
          rw [← ht, List.drop_left, List.filter_append,
            filter_of_all_spTab p hsp m hm, List.nil_append]
        · rw [if_neg hpre]

theorem indentAfterNl_nl (d : Nat) (rest : List Char) :
    indentAfterNl d ('\n' :: rest) =
      '\n' :: (List.replicate d ' ' ++ indentAfterNl d rest) := by
  simp [indentAfterNl]

theorem indentAfterNl_other (d : Nat) (c : Char) (rest : List Char) (h : ¬c = '\n') :
    indentAfterNl d (c :: rest) = c :: indentAfterNl d rest := by
  simp [indentAfterNl, h]

theorem filter_indentAfterNl (p : Char → Bool) (hp : p ' ' = false)
    (d : Nat) : ∀ s : List Char, (indentAfterNl d s).filter p = s.filter p := by
  intro s
  induction s with
  | nil => rfl
  | cons c rest ih =>
    by_cases h : c = '\n'
    · subst h
      rw [indentAfterNl_nl, List.filter_cons, List.filter_cons, List.filter_append,
        filter_replicate_space p hp, List.nil_append, ih]
    · rw [indentAfterNl_other d c rest h, List.filter_cons, List.filter_cons, ih]

theorem filter_pad (p : Char → Bool) (hsp : ∀ c, isSpTab c = true → p c = false)
    (hnl : p '\n' = false) (s : List Char) (d : Nat) :
    (pad s d).filter p = s.filter p := by
  have hp : p ' ' = false := hsp ' ' (by decide)
  unfold pad indentEveryLine
  rw [List.filter_append, List.filter_append, filter_replicate_space p hp,
    filter_indentAfterNl p hp, filter_dedent p hsp hnl, List.filter_cons, hnl]
  simp

theorem filter_dropWhile_of (p q : Char → Bool) (hq : ∀ c, q c = true → p c = false) :
    ∀ l : List Char, (l.dropWhile q).filter p = l.filter p := by
  intro l
  induction l with
  | nil => rfl
  | cons c rest ih =>
    simp only [List.dropWhile]
    cases hc : q c with
    | false => rfl
    | true =>
      rw [ih, List.filter_cons, hq c hc]
      simp

theorem filter_pyStrip (p : Char → Bool) (hws : ∀ c, isPyWs c = true → p c = false)
    (s : List Char) : (pyStrip s).filter p = s.filter p := by
  unfold pyStrip
  rw [List.filter_reverse, filter_dropWhile_of p isPyWs hws, List.filter_reverse,
    filter_dropWhile_of p isPyWs hws, List.reverse_reverse]

theorem filter_filter_of (p q : Char → Bool) (hpq : ∀ c, p c = true → q c = true) :
    ∀ l : List Char, (l.filter q).filter p = l.filter p := by
  intro l
  induction l with
  | nil => rfl
  | cons c rest ih =>
    rw [List.filter_cons]
    cases hq : q c with
    | false =>
      have hpc : p c = false := by
        cases hpc : p c with
        | false => rfl
        | true => rw [hpq c hpc] at hq; exact absurd hq (by simp)
      rw [List.filter_cons, hpc]
      simpa using ih
    | true =>
      rw [if_pos rfl, List.filter_cons]
      cases hp2 : p c <;> simp [ih, hp2]

/-! ### Claim C2 -/

/-- C2 counterexample: the claim states the translated-equations text is
emitted byte-for-byte identical into both `ode_rhs` bodies.  For the
one-equation text `ydot[0] = p[0]*y[0];` the text embedded in the fast-path
body still contains the semicolon while the text embedded in the interpreted
body does not (the `.replace` and `.strip` of source line 228 are applied to
that copy only, after duplication), so the two embedded texts differ. -/
theorem c2_equations_embedding_counterexample :
    (';' ∈ fastEqsEmbedded "ydot[0] = p[0]*y[0];".data)
    ∧ (';' ∉ interpEqsEmbedded "ydot[0] = p[0]*y[0];".data)
    ∧ fastEqsEmbedded "ydot[0] = p[0]*y[0];".data
        ≠ interpEqsEmbedded "ydot[0] = p[0]*y[0];".data :=
  ⟨by decide, by decide, by decide⟩

/-- C2 (amended): both `ode_rhs` bodies embed the one translated-equations
string computed before emission, but the embedded copies are not
byte-for-byte identical: each copy receives its own indentation, and the
interpreted copy additionally has every semicolon removed and surrounding
whitespace stripped after the duplication.  Up to whitespace and semicolons
the two embedded texts carry exactly the equation content of the translated
string. -/
theorem c2_equations_embedding_amended :
    ∀ code_eqs : List Char,
      (fastEqsEmbedded code_eqs).filter keepC2 = code_eqs.filter keepC2
      ∧ (interpEqsEmbedded code_eqs).filter keepC2 = code_eqs.filter keepC2 := by
  intro eqs
  have hsp : ∀ c, isSpTab c = true → keepC2 c = false := by
    intro c hc
    simp only [isSpTab, Bool.or_eq_true, beq_iff_eq] at hc
    rcases hc with h | h <;> subst h <;> decide
  have hnl : keepC2 '\n' = false := by decide
  have hws : ∀ c, isPyWs c = true → keepC2 c = false := by
    intro c hc
    simp [keepC2, hc]
  have hsemi : ∀ c, keepC2 c = true → (!(c == ';')) = true := by
    intro c hc
    simp only [keepC2, Bool.not_eq_true', Bool.or_eq_false_iff] at hc
    simp [hc.2]
  constructor
  · unfold fastEqsEmbedded
    rw [List.filter_append, filter_pad keepC2 hsp hnl,
      filter_replicate_space keepC2 (hsp ' ' (by decide)), List.append_nil,
      List.filter_cons, hnl]
    simp
  · unfold interpEqsEmbedded
    rw [filter_pyStrip keepC2 hws, filter_filter_of keepC2 _ hsemi,
      filter_pad keepC2 hsp hnl, List.filter_cons, hnl]
    simp

/-! ### Structure of one `simulate` call -/

theorem Gen.simulateFrom_eq (st : Gen.Model) (oracle : Nat → Option (List ℤ))
    (tspan : List ℤ) (spv : List ℤ) (view : Bool) :
    Gen.simulateFrom st oracle tspan spv view =
      ({ st with
          sim_param_values := spv
          y0 := Gen.initState st spv
          y := some (Gen.Buf.mk (Gen.yBufAfter st tspan).tag
            (Gen.ydataAfter st oracle tspan spv))
          yobs := some (Gen.Buf.mk (Gen.yobsBufAfter st tspan).tag
            (Gen.yobsdataAfter st oracle tspan spv))
          allocCount := Gen.cntAfter st tspan },
       Except.ok
         (Gen.OutArr.mk (if view then some (Gen.yBufAfter st tspan).tag else none)
            (!view) (Gen.ydataAfter st oracle tspan spv),
          Gen.OutArr.mk (if view then some (Gen.yobsBufAfter st tspan).tag else none)
            (!view) (Gen.yobsdataAfter st oracle tspan spv))) := by
  by_cases hr : Gen.reallocNeeded st tspan = true <;> by_cases hv : view = true <;>
    simp only [Bool.not_eq_true] at hv <;>
    simp [Gen.simulateFrom, Gen.initState, Gen.yBufAfter, Gen.yobsBufAfter, Gen.cntAfter,
      Gen.ydataAfter, Gen.yobsdataAfter, hr, hv]

theorem Gen.simulate_ok_route (st : Gen.Model) (oracle : Nat → Option (List ℤ))
    (tspan : List ℤ) (pv : Option (List ℤ)) (view : Bool)
    (st' : Gen.Model) (out : Gen.OutArr × Gen.OutArr)
    (h : Gen.simulate st oracle tspan pv view = (st', Except.ok out)) :
    Gen.simulate st oracle tspan pv view =
      Gen.simulateFrom st oracle tspan (Gen.effectiveParams st pv) view := by
  cases pv with
  | none => rfl
  | some v =>
    show Gen.simulate st oracle tspan (some v) view
      = Gen.simulateFrom st oracle tspan v view
    by_cases hl : v.length = st.parameters.length
    · simp [Gen.simulate, hl]
    · exfalso
      simp only [Gen.simulate, if_pos hl] at h
      have h2 := congrArg Prod.snd h
      simp at h2

theorem Gen.fillRowsAux_length (oracle : Nat → Option (List ℤ)) :
    ∀ (rem t : Nat) (y : List (List ℤ)),
      (Gen.fillRowsAux oracle rem t y).length = y.length := by
  intro rem
  induction rem with
  | zero => intro t y; rfl
  | succ n ih =>
    intro t y
    simp only [Gen.fillRowsAux]
    cases oracle t with
    | none => rfl
    | some row => rw [ih (t + 1) (y.set t row), List.length_set]

theorem head?_set_of_pos (y : List (List ℤ)) (t : Nat) (v : List ℤ) (ht : 1 ≤ t) :
    (y.set t v).head? = y.head? := by
  cases y with
  | nil => rfl
  | cons a y2 =>
    cases t with
    | zero => omega
    | succ t2 => rfl

theorem Gen.fillRowsAux_head (oracle : Nat → Option (List ℤ)) :
    ∀ (rem t : Nat) (y : List (List ℤ)), 1 ≤ t →
      (Gen.fillRowsAux oracle rem t y).head? = y.head? := by
  intro rem
  induction rem with
  | zero => intro t y _; rfl
  | succ n ih =>
    intro t y ht
    simp only [Gen.fillRowsAux]
    cases oracle t with
    | none => rfl
    | some row =>
      rw [ih (t + 1) (y.set t row) (by omega), head?_set_of_pos y t row ht]

theorem Gen.yBufAfter_data_length (st : Gen.Model) (tspan : List ℤ) :
    (Gen.yBufAfter st tspan).data.length = tspan.length := by
  unfold Gen.yBufAfter
  by_cases hr : Gen.reallocNeeded st tspan = true
  · rw [if_pos hr]
    simp
  · rw [if_neg hr]
    unfold Gen.reallocNeeded at hr
    cases hy : st.y with
    | none => rw [hy] at hr; simp at hr
    | some yb =>
      rw [hy] at hr
      simp only [bne_iff_ne, ne_eq, Decidable.not_not] at hr
      simp [hy, hr]

theorem Gen.ydataAfter_length (st : Gen.Model) (oracle : Nat → Option (List ℤ))
    (tspan : List ℤ) (spv : List ℤ) :
    (Gen.ydataAfter st oracle tspan spv).length = tspan.length := by
  unfold Gen.ydataAfter Gen.fillRows
  rw [Gen.fillRowsAux_length, List.length_set, Gen.yBufAfter_data_length]

theorem head?_set_zero (l : List (List ℤ)) (v : List ℤ) (hl : l ≠ []) :
    (l.set 0 v).head? = some v := by
  cases l with
  | nil => exact absurd rfl hl
  | cons a l2 => rfl

theorem Gen.ydataAfter_head (st : Gen.Model) (oracle : Nat → Option (List ℤ))
    (tspan : List ℤ) (spv : List ℤ) (ht : tspan ≠ []) :
    (Gen.ydataAfter st oracle tspan spv).head? = some (Gen.initState st spv) := by
  unfold Gen.ydataAfter Gen.fillRows
  rw [Gen.fillRowsAux_head oracle _ 1 _ (Nat.le_refl 1)]
  apply head?_set_zero
  intro hnil
  have h1 : (Gen.yBufAfter st tspan).data.length = 0 := by rw [hnil]; rfl
  rw [Gen.yBufAfter_data_length] at h1
  exact ht (List.eq_nil_of_length_eq_zero h1)

theorem zip_mul_sum_comm :
    ∀ (sp : List Nat) (cf : List ℤ) (row : List ℤ),
      (((sp.map (fun s => row.getD s 0)).zip cf).map (fun yc => yc.1 * yc.2)).sum
        = ((sp.zip cf).map (fun sc => sc.2 * row.getD sc.1 0)).sum := by
  intro sp
  induction sp with
  | nil => intro cf row; rfl
  | cons s sp2 ih =>
    intro cf row
    cases cf with
    | nil => rfl
    | cons c cf2 =>
      simp only [List.map_cons, List.zip_cons_cons, List.sum_cons]
      rw [ih cf2 row, Int.mul_comm]

/-! ### Claim C5 -/

/-- C5: in the load-time capability probe exactly one failure kind, the
native-compilation CompileError, is caught; the probe flag then stays False
and loading continues.  A successful probe sets the flag, and an exception of
any other kind raised by the probe propagates uncaught, aborting the load. -/
theorem c5_probe_catches_only_compile_error :
    probeUseInline ProbeOutcome.raisedCompileError = Except.ok false
    ∧ probeUseInline ProbeOutcome.success = Except.ok true
    ∧ ∀ kind, probeUseInline (ProbeOutcome.raisedOther kind) = Except.error kind :=
  ⟨rfl, rfl, fun _ => rfl⟩

/-! ### Claim C4 -/

/-- C4: a `simulate` call whose override parameter vector has the wrong
length raises before any numeric work: the returned post-call instance is
exactly the pre-call instance (parameter vector, state vector and trajectory
buffers unchanged), and the result is the length error. -/
theorem c4_param_length_mismatch (st : Gen.Model) (oracle : Nat → Option (List ℤ))
    (tspan : List ℤ) (pv : List ℤ) (view : Bool)
    (h : pv.length ≠ st.parameters.length) :
    Gen.simulate st oracle tspan (some pv) view =
      (st, Except.error ("param_values must have length ".data
        ++ (Nat.repr st.parameters.length).data)) := by
  simp [Gen.simulate, h]

/-- C4 witness: a three-element override against the two-parameter fixture
model fails with the instance unchanged. -/
theorem c4_witness :
    Gen.simulate Fixture.st0 Fixture.orc [0, 1, 2] (some [1, 2, 3]) false =
      (Fixture.st0, Except.error ("param_values must have length ".data
        ++ (Nat.repr Fixture.st0.parameters.length).data)) :=
  c4_param_length_mismatch Fixture.st0 Fixture.orc [0, 1, 2] [1, 2, 3] false (by decide)

/-! ### Claim C6 -/

/-- C6: for a validated call, the effective parameter vector is the override
when supplied and the nominal baked-in values otherwise; the state vector is
zero-filled and then every initial condition sets
`state[species_index] = effective_params[param_index]`; and the first
trajectory row equals this initial state for every integrator oracle (no
integration step is consulted for the first timepoint). -/
theorem c6_initial_state (st : Gen.Model) (oracle : Nat → Option (List ℤ))
    (tspan : List ℤ) (pv : Option (List ℤ)) (view : Bool) (st' : Gen.Model)
    (yout oout : Gen.OutArr)
    (h : Gen.simulate st oracle tspan pv view = (st', Except.ok (yout, oout)))
    (ht : tspan ≠ []) :
    st'.sim_param_values = Gen.effectiveParams st pv
    ∧ (pv = none → Gen.effectiveParams st pv = st.parameters.map Gen.Parameter.value)
    ∧ (∀ v, pv = some v → Gen.effectiveParams st pv = v)
    ∧ st'.y0 = st.initial_conditions.foldl
        (fun v ic => v.set ic.species_index
          ((Gen.effectiveParams st pv).getD ic.param_index 0))
        (List.replicate st.y0.length 0)
    ∧ yout.data.head? = some st'.y0 := by
  rw [Gen.simulate_ok_route st oracle tspan pv view st' (yout, oout) h,
    Gen.simulateFrom_eq] at h
  injection h with h1 h2
  injection h2 with h2
  injection h2 with hy ho
  subst h1
  subst hy
  subst ho
  refine ⟨rfl, ?_, ?_, rfl, ?_⟩
  · intro hpv
    subst hpv
    rfl
  · intro v hpv
    subst hpv
    rfl
  · show (Gen.ydataAfter st oracle tspan (Gen.effectiveParams st pv)).head? = _
    rw [Gen.ydataAfter_head st oracle tspan _ ht]

/-- C6 witness: the fixture run with no override has effective parameters
`[5, 7]`, initial state built from the initial conditions, and first
trajectory row equal to it. -/
theorem c6_witness :
    Fixture.st1.sim_param_values = Gen.effectiveParams Fixture.st0 none
    ∧ Gen.effectiveParams Fixture.st0 none
        = Fixture.st0.parameters.map Gen.Parameter.value
    ∧ Fixture.st1.y0 = Fixture.st0.initial_conditions.foldl
        (fun v ic => v.set ic.species_index
          ((Gen.effectiveParams Fixture.st0 none).getD ic.param_index 0))
        (List.replicate Fixture.st0.y0.length 0)
    ∧ (Fixture.outs1.1).data.head? = some Fixture.st1.y0 :=
  have h := c6_initial_state Fixture.st0 Fixture.orc [0, 1, 2] none false Fixture.st1
    Fixture.outs1.1 Fixture.outs1.2 (by rfl) (by decide)
  ⟨h.1, h.2.1 rfl, h.2.2.2.1, h.2.2.2.2⟩

/-! ### Claim C7 -/

/-- C7: each observable trajectory entry is the linear combination, over the
observable species with their coefficients, of the species trajectory values
of the same row: whenever row `r` of the returned species trajectory is
`row` and observable `i` is `ob`, entry `i` of row `r` of the returned
observable trajectory equals the sum over the co-indexed
(species, coefficient) pairs of coefficient times species value. -/
theorem c7_observable_linear (st : Gen.Model) (oracle : Nat → Option (List ℤ))
    (tspan : List ℤ) (pv : Option (List ℤ)) (view : Bool) (st' : Gen.Model)
    (yout oout : Gen.OutArr) (r i : Nat) (ob : Gen.Observable) (row : List ℤ)
    (h : Gen.simulate st oracle tspan pv view = (st', Except.ok (yout, oout)))
    (hi : st.observables.get? i = some ob)
    (hrow : yout.data.get? r = some row) :
    ∃ orow, oout.data.get? r = some orow ∧
      orow.get? i = some (((ob.species.zip ob.coefficients).map
        (fun sc => sc.2 * row.getD sc.1 0)).sum) := by
  rw [Gen.simulate_ok_route st oracle tspan pv view st' (yout, oout) h,
    Gen.simulateFrom_eq] at h
  injection h with h1 h2
  injection h2 with h2
  injection h2 with hy ho
  subst h1
  subst hy
  subst ho
  simp only at hrow ⊢
  refine ⟨st.observables.map (Gen.obsValue row), ?_, ?_⟩
  · show (Gen.yobsdataAfter st oracle tspan (Gen.effectiveParams st pv)).get? r = _
    unfold Gen.yobsdataAfter
    rw [List.get?_map, hrow]
    rfl
  · rw [List.get?_map, hi]
    show some (Gen.obsValue row ob) = _
    unfold Gen.obsValue
    rw [zip_mul_sum_comm]

/-- C7 witness: for the fixture run, row 1 of the species trajectory is
`[4, 6]` and the observable with species `[0, 1]` and coefficients `[2, 3]`
has value `2 * 4 + 3 * 6` there. -/
theorem c7_witness :
    ∃ orow, (Fixture.outs1.2).data.get? 1 = some orow ∧
      orow.get? 0 = some ((((⟨"ab".data, [0, 1], [2, 3]⟩ : Gen.Observable).species.zip
        (⟨"ab".data, [0, 1], [2, 3]⟩ : Gen.Observable).coefficients).map
        (fun sc => sc.2 * ([4, 6] : List ℤ).getD sc.1 0)).sum) :=
  c7_observable_linear Fixture.st0 Fixture.orc [0, 1, 2] none false Fixture.st1
    Fixture.outs1.1 Fixture.outs1.2 1 0 ⟨"ab".data, [0, 1], [2, 3]⟩ [4, 6]
    (by rfl) (by rfl) (by rfl)

/-! ### Claim C9 -/

/-- C9: with `view = True` the returned arrays are read-only views aliasing
the internal cached buffers (same tag, same data, writeable flag cleared,
attempted element assignment fails); with `view = False` (the default) they
are fresh writable copies aliasing no internal buffer, with the same
contents, and element assignment succeeds. -/
theorem c9_view_aliasing (st : Gen.Model) (oracle : Nat → Option (List ℤ))
    (tspan : List ℤ) (pv : Option (List ℤ)) (view : Bool) (st' : Gen.Model)
    (yout oout : Gen.OutArr)
    (h : Gen.simulate st oracle tspan pv view = (st', Except.ok (yout, oout))) :
    (view = true →
      (∃ b, st'.y = some b ∧ yout.aliasTag = some b.tag ∧ yout.data = b.data)
      ∧ (∃ b, st'.yobs = some b ∧ oout.aliasTag = some b.tag ∧ oout.data = b.data)
      ∧ yout.writable = false ∧ oout.writable = false
      ∧ (∀ i j v, yout.write i j v
          = Except.error "assignment destination is read-only".data)
      ∧ (∀ i j v, oout.write i j v
          = Except.error "assignment destination is read-only".data))
    ∧ (view = false →
      yout.aliasTag = none ∧ oout.aliasTag = none
      ∧ yout.writable = true ∧ oout.writable = true
      ∧ (∃ b, st'.y = some b ∧ yout.data = b.data)
      ∧ (∃ b, st'.yobs = some b ∧ oout.data = b.data)
      ∧ (∀ i j v, ∃ a, yout.write i j v = Except.ok a)) := by
  rw [Gen.simulate_ok_route st oracle tspan pv view st' (yout, oout) h,
    Gen.simulateFrom_eq] at h
  injection h with h1 h2
  injection h2 with h2
  injection h2 with hy ho
  subst h1
  subst hy
  subst ho
  constructor
  · intro hv
    subst hv
    exact ⟨⟨_, rfl, rfl, rfl⟩, ⟨_, rfl, rfl, rfl⟩, rfl, rfl,
      fun i j v => rfl, fun i j v => rfl⟩
  · intro hv
    subst hv
    exact ⟨rfl, rfl, rfl, rfl, ⟨_, rfl, rfl⟩, ⟨_, rfl, rfl⟩,
      fun i j v => ⟨_, rfl⟩⟩

/-- C9 witness: for the fixture runs, the `view = True` species output is
read-only and rejects an element write, while the `view = False` output is a
writable non-aliasing copy. -/
theorem c9_witness :
    ((Fixture.outsV.1).writable = false
      ∧ (Fixture.outsV.1).write 0 0 9
          = Except.error "assignment destination is read-only".data)
    ∧ ((Fixture.outs1.1).writable = true ∧ (Fixture.outs1.1).aliasTag = none) := by
  have hv := c9_view_aliasing Fixture.st0 Fixture.orc [0, 1, 2] none true Fixture.stV
    Fixture.outsV.1 Fixture.outsV.2 (by rfl)
  have hf := c9_view_aliasing Fixture.st0 Fixture.orc [0, 1, 2] none false Fixture.st1
    Fixture.outs1.1 Fixture.outs1.2 (by rfl)
  exact ⟨⟨(hv.1 rfl).2.2.1, (hv.1 rfl).2.2.2.2.1 0 0 9⟩,
    ⟨(hf.2 rfl).2.2.1, (hf.2 rfl).1⟩⟩

/-! ### Claim C10 -/

/-- C10: a `simulate` call with `param_values = None` recomputes the
simulation parameter vector from the nominal baked-in parameter values; the
declared parameter table is never mutated; hence the effective parameters of
such a call agree with those of any instance with the same declared
parameters (in particular a fresh one), regardless of overrides passed to
earlier calls. -/
theorem c10_no_override_leak (st : Gen.Model) (oracle : Nat → Option (List ℤ))
    (tspan : List ℤ) (view : Bool) :
    ((Gen.simulate st oracle tspan none view).1).sim_param_values
        = st.parameters.map Gen.Parameter.value
    ∧ ((Gen.simulate st oracle tspan none view).1).parameters = st.parameters
    ∧ ∀ st2 : Gen.Model, st2.parameters = st.parameters →
        ((Gen.simulate st2 oracle tspan none view).1).sim_param_values
          = ((Gen.simulate st oracle tspan none view).1).sim_param_values := by
  have key : ∀ s : Gen.Model,
      ((Gen.simulate s oracle tspan none view).1).sim_param_values
        = s.parameters.map Gen.Parameter.value := by
    intro s
    show ((Gen.simulateFrom s oracle tspan (s.parameters.map Gen.Parameter.value)
      view).1).sim_param_values = _
    rw [Gen.simulateFrom_eq]
  refine ⟨key st, ?_, ?_⟩
  · show ((Gen.simulateFrom st oracle tspan (st.parameters.map Gen.Parameter.value)
      view).1).parameters = _
    rw [Gen.simulateFrom_eq]
  · intro st2 hp
    rw [key st2, key st, hp]

/-- C10 witness: the fixture instance that has just been run with override
parameters `[100, 200]` yields, on a subsequent call without override, the
same simulation parameter vector as the untouched fixture instance. -/
theorem c10_witness :
    ((Gen.simulate Fixture.stOv Fixture.orc [0, 1, 2] none false).1).sim_param_values
      = ((Gen.simulate Fixture.st0 Fixture.orc [0, 1, 2] none false).1).sim_param_values :=
  (c10_no_override_leak Fixture.st0 Fixture.orc [0, 1, 2] false).2.2 Fixture.stOv (by rfl)

/-! ### Claim C8 -/

theorem Gen.simulate_ok_bufs (st : Gen.Model) (oracle : Nat → Option (List ℤ))
    (tspan : List ℤ) (pv : Option (List ℤ)) (view : Bool) (st' : Gen.Model)
    (out : Gen.OutArr × Gen.OutArr)
    (h : Gen.simulate st oracle tspan pv view = (st', Except.ok out)) :
    st'.y = some (Gen.Buf.mk (Gen.yBufAfter st tspan).tag
        (Gen.ydataAfter st oracle tspan (Gen.effectiveParams st pv)))
    ∧ st'.yobs = some (Gen.Buf.mk (Gen.yobsBufAfter st tspan).tag
        (Gen.yobsdataAfter st oracle tspan (Gen.effectiveParams st pv)))
    ∧ st'.allocCount = Gen.cntAfter st tspan := by
  rw [Gen.simulate_ok_route st oracle tspan pv view st' out h,
    Gen.simulateFrom_eq] at h
  injection h with h1 _
  subst h1
  exact ⟨rfl, rfl, rfl⟩

theorem Gen.reallocNeeded_none (st : Gen.Model) (tspan : List ℤ)
    (h : st.y = none) : Gen.reallocNeeded st tspan = true := by
  unfold Gen.reallocNeeded
  rw [h]

theorem Gen.reallocNeeded_some (st : Gen.Model) (tspan : List ℤ) (b : Gen.Buf)
    (h : st.y = some b) :
    Gen.reallocNeeded st tspan = (tspan.length != b.data.length) := by
  unfold Gen.reallocNeeded
  rw [h]

theorem Gen.yBufAfter_tag (st : Gen.Model) (tspan : List ℤ) :
    (Gen.yBufAfter st tspan).tag =
      if Gen.reallocNeeded st tspan then st.allocCount
      else (st.y.getD (Gen.Buf.mk 0 [])).tag := by
  unfold Gen.yBufAfter
  by_cases h : Gen.reallocNeeded st tspan = true <;> simp [h]

theorem Gen.yobsBufAfter_tag (st : Gen.Model) (tspan : List ℤ) :
    (Gen.yobsBufAfter st tspan).tag =
      if Gen.reallocNeeded st tspan then st.allocCount + 1
      else (st.yobs.getD (Gen.Buf.mk 0 [])).tag := by
  unfold Gen.yobsBufAfter
  by_cases h : Gen.reallocNeeded st tspan = true <;> simp [h]

theorem Gen.cntAfter_eq (st : Gen.Model) (tspan : List ℤ) :
    Gen.cntAfter st tspan =
      if Gen.reallocNeeded st tspan then st.allocCount + 2 else st.allocCount := rfl

/-- C8: consecutive `simulate` calls on one instance reallocate the
trajectory buffers exactly when needed: across two successful consecutive
calls the species and observable buffers of the second call are the very
buffers of the first call (same allocation tag) if and only if the two
requested timepoint counts agree; and on an instance that has never
allocated (`y` absent) the first call installs a freshly allocated buffer. -/
theorem c8_buffer_reuse (st : Gen.Model) (oracle1 oracle2 : Nat → Option (List ℤ))
    (tspan1 tspan2 : List ℤ) (pv1 pv2 : Option (List ℤ)) (v1 v2 : Bool)
    (st1 st2 : Gen.Model) (out1 out2 : Gen.OutArr × Gen.OutArr)
    (b1 b2 bo1 bo2 : Gen.Buf)
    (hOKy : ∀ b, st.y = some b → b.tag < st.allocCount)
    (hOKo : ∀ b, st.yobs = some b → b.tag < st.allocCount)
    (h1 : Gen.simulate st oracle1 tspan1 pv1 v1 = (st1, Except.ok out1))
    (h2 : Gen.simulate st1 oracle2 tspan2 pv2 v2 = (st2, Except.ok out2))
    (hb1 : st1.y = some b1) (hb2 : st2.y = some b2)
    (hbo1 : st1.yobs = some bo1) (hbo2 : st2.yobs = some bo2) :
    (b2.tag = b1.tag ↔ tspan2.length = tspan1.length)
    ∧ (bo2.tag = bo1.tag ↔ tspan2.length = tspan1.length)
    ∧ (st.y = none → b1.tag = st.allocCount) := by
  obtain ⟨e1y, e1o, e1c⟩ := Gen.simulate_ok_bufs st oracle1 tspan1 pv1 v1 st1 out1 h1
  obtain ⟨e2y, e2o, e2c⟩ := Gen.simulate_ok_bufs st1 oracle2 tspan2 pv2 v2 st2 out2 h2
  rw [e1y, Option.some.injEq] at hb1
  rw [e2y, Option.some.injEq] at hb2
  rw [e1o, Option.some.injEq] at hbo1
  rw [e2o, Option.some.injEq] at hbo2
  have hb1t : b1.tag = (Gen.yBufAfter st tspan1).tag := by rw [← hb1]
  have hb2t : b2.tag = (Gen.yBufAfter st1 tspan2).tag := by rw [← hb2]
  have hbo1t : bo1.tag = (Gen.yobsBufAfter st tspan1).tag := by rw [← hbo1]
  have hbo2t : bo2.tag = (Gen.yobsBufAfter st1 tspan2).tag := by rw [← hbo2]
  have hr2 : Gen.reallocNeeded st1 tspan2 = (tspan2.length != tspan1.length) := by
    rw [Gen.reallocNeeded_some st1 tspan2 _ e1y]
    simp only [Gen.ydataAfter_length]
  have ht2 : (Gen.yBufAfter st1 tspan2).tag =
      if (tspan2.length != tspan1.length) then st1.allocCount
      else (Gen.yBufAfter st tspan1).tag := by
    rw [Gen.yBufAfter_tag, hr2, e1y]
    rfl
  have hto2 : (Gen.yobsBufAfter st1 tspan2).tag =
      if (tspan2.length != tspan1.length) then st1.allocCount + 1
      else (Gen.yobsBufAfter st tspan1).tag := by
    rw [Gen.yobsBufAfter_tag, hr2, e1o]
    rfl
  have hbig : (Gen.yBufAfter st tspan1).tag < Gen.cntAfter st tspan1
      ∧ (Gen.yobsBufAfter st tspan1).tag < Gen.cntAfter st tspan1 + 1 := by
    rw [Gen.yBufAfter_tag, Gen.yobsBufAfter_tag, Gen.cntAfter_eq]
    by_cases hr1 : Gen.reallocNeeded st tspan1 = true
    · rw [if_pos hr1, if_pos hr1, if_pos hr1]
      omega
    · rw [if_neg hr1, if_neg hr1, if_neg hr1]
      cases hy : st.y with
      | none => exact absurd (Gen.reallocNeeded_none st tspan1 hy) hr1
      | some yb =>
        have hyt : yb.tag < st.allocCount := hOKy yb hy
        constructor
        · simpa using hyt
        · cases ho : st.yobs with
          | none => simp
          | some ob =>
            have hot : ob.tag < st.allocCount := hOKo ob ho
            simp only [Option.getD_some]
            omega
  rw [hb1t, hb2t, hbo1t, hbo2t, ht2, hto2]
  by_cases hl : tspan2.length = tspan1.length
  · have hbne : (tspan2.length != tspan1.length) = false := by simp [hl]
    rw [if_neg (by rw [hbne]; simp), if_neg (by rw [hbne]; simp)]
    exact ⟨⟨fun _ => hl, fun _ => rfl⟩, ⟨fun _ => hl, fun _ => rfl⟩,
      fun hy => by rw [Gen.yBufAfter_tag, if_pos (Gen.reallocNeeded_none st tspan1 hy)]⟩
  · have hbne : (tspan2.length != tspan1.length) = true := by simp [hl]
    rw [if_pos (by rw [hbne]), if_pos (by rw [hbne]), e1c]
    refine ⟨⟨fun he => absurd he (by omega), fun he => absurd he hl⟩,
      ⟨fun he => absurd he (by omega), fun he => absurd he hl⟩,
      fun hy => by rw [Gen.yBufAfter_tag, if_pos (Gen.reallocNeeded_none st tspan1 hy)]⟩

/-- C8 witness: two consecutive fixture runs with the same three-point time
span leave the species and observable buffer tags unchanged, and the first
call on the fresh instance installed the first allocated buffer. -/
theorem c8_witness :
    (Fixture.b2.tag = Fixture.b1.tag
        ↔ ([0, 1, 2] : List ℤ).length = ([0, 1, 2] : List ℤ).length)
    ∧ (Fixture.ob2.tag = Fixture.ob1.tag
        ↔ ([0, 1, 2] : List ℤ).length = ([0, 1, 2] : List ℤ).length)
    ∧ (Fixture.st0.y = none → Fixture.b1.tag = Fixture.st0.allocCount) :=
  c8_buffer_reuse Fixture.st0 Fixture.orc (fun _ => none) [0, 1, 2] [0, 1, 2]
    none none false false Fixture.st1 Fixture.st2 Fixture.outs1 Fixture.outs2
    Fixture.b1 Fixture.b2 Fixture.ob1 Fixture.ob2
    (fun b hb => Option.noConfusion hb) (fun b hb => Option.noConfusion hb)
    (by rfl) (by rfl) (by rfl) (by rfl) (by rfl) (by rfl)
